import Mathlib

/-!
Verification development for the chunking / retry / merge layer of the
LangExtractor-valid-JP repository (`src/text_extractor.py`).

Texts are modelled as `List Char` (Python `len` counts code points, which
matches `List.length` on the character list).  Fallible calls to the
external extraction client are modelled by an explicit client oracle, and
the recursive narrowing retry is modelled with an explicit fuel parameter
(`none` = the recursion does not terminate within any finite depth).
-/

set_option maxRecDepth 100000

/-- The characters Python's `str.strip()` removes: the CPython string
whitespace set (ASCII whitespace including the separator controls
U+001C-U+001F, NEL U+0085, NBSP U+00A0, U+1680, U+2000-U+200A, the line and
paragraph separators U+2028/U+2029, U+202F, U+205F, and the ideographic space
U+3000).  `_chunk_text` applies `strip` to every chunk. -/
def isPySpace (c : Char) : Bool :=
  c = ' ' || c = '\t' || c = '\n' || c = '\x0b' || c = '\x0c' || c = '\r'
    || c = '\x1c' || c = '\x1d' || c = '\x1e' || c = '\x1f'
    || c = '\x85' || c = '\xa0' || c = '\u1680'
    || c = '\u2000' || c = '\u2001' || c = '\u2002' || c = '\u2003' || c = '\u2004'
    || c = '\u2005' || c = '\u2006' || c = '\u2007' || c = '\u2008' || c = '\u2009'
    || c = '\u200a' || c = '\u2028' || c = '\u2029' || c = '\u202f' || c = '\u205f'
    || c = '\u3000'

/-- The sentence-ending characters of `re.split(r'[。！？\n]', text)`
(`_chunk_text`, line 311). -/
def isSentenceEnd (c : Char) : Bool :=
  c = '。' || c = '！' || c = '？' || c = '\n'

/-- Python `str.strip()`: drop whitespace from both ends. -/
def pyStrip (l : List Char) : List Char :=
  ((l.dropWhile isPySpace).reverse.dropWhile isPySpace).reverse

/-- `re.split(r'[。！？\n]', text)`: split on every delimiter character,
keeping empty pieces (consecutive or trailing delimiters give `""`, the
empty input gives `[""]`). -/
def splitSentences : List Char → List (List Char)
  | [] => [[]]
  | ch :: rest =>
    if isSentenceEnd ch then
      [] :: splitSentences rest
    else
      match splitSentences rest with
      | [] => [[ch]]
      | s :: ss => (ch :: s) :: ss

/-- The accumulation loop of `_chunk_text` (lines 313-323): greedily pack
sentences into `current_chunk`, re-appending a `。` terminator after each
sentence; the acceptance test `len(current_chunk) + len(sentence) <= max_size`
does not count the terminator that is about to be appended. -/
def chunkAux (max_size : Nat) : List (List Char) → List Char → List (List Char)
  | [], cur => if cur = [] then [] else [pyStrip cur]
  | s :: rest, cur =>
    if cur.length + s.length ≤ max_size then
      chunkAux max_size rest (cur ++ s ++ ['。'])
    else
      (if cur = [] then [] else [pyStrip cur]) ++ chunkAux max_size rest (s ++ ['。'])

/-- `JapaneseTextExtractor._chunk_text` (lines 308-325). -/
def chunk_text (text : List Char) (max_size : Nat) : List (List Char) :=
  chunkAux max_size (splitSentences text) []

/-- Shorthand used in concrete statements. -/
def s2l (s : String) : List Char := s.toList

-- ### Basic facts about `splitSentences`

theorem splitSentences_ne_nil (t : List Char) : splitSentences t ≠ [] := by
  cases t with
  | nil => simp [splitSentences]
  | cons ch rest =>
    simp only [splitSentences]
    split
    · simp
    · split <;> simp

theorem mem_splitSentences :
    ∀ (t s : List Char), s ∈ splitSentences t →
      ∀ c ∈ s, c ∈ t ∧ isSentenceEnd c = false := by
  intro t
  induction t with
  | nil =>
    intro s hs c hc
    simp [splitSentences] at hs
    subst hs
    simp at hc
  | cons ch rest ih =>
    intro s hs c hc
    by_cases hd : isSentenceEnd ch
    · rw [splitSentences, if_pos hd] at hs
      rcases List.mem_cons.mp hs with h | h
      · subst h; simp at hc
      · have := ih s h c hc
        exact ⟨List.mem_cons_of_mem _ this.1, this.2⟩
    · rw [splitSentences, if_neg hd] at hs
      rcases hrec : splitSentences rest with _ | ⟨s0, ss⟩
      · exact absurd hrec (splitSentences_ne_nil rest)
      · rw [hrec] at hs
        rcases List.mem_cons.mp hs with h | h
        · subst h
          rcases List.mem_cons.mp hc with h' | h'
          · subst h'
            exact ⟨List.mem_cons_self _ _, by simpa using hd⟩
          · have hs0 : s0 ∈ splitSentences rest := by rw [hrec]; exact List.mem_cons_self _ _
            have := ih s0 hs0 c h'
            exact ⟨List.mem_cons_of_mem _ this.1, this.2⟩
        · have hss : s ∈ splitSentences rest := by rw [hrec]; exact List.mem_cons_of_mem _ h
          have := ih s hss c hc
          exact ⟨List.mem_cons_of_mem _ this.1, this.2⟩

-- ### Basic facts about `pyStrip`

theorem pyStrip_length_le (l : List Char) : (pyStrip l).length ≤ l.length := by
  unfold pyStrip
  calc ((l.dropWhile isPySpace).reverse.dropWhile isPySpace).reverse.length
      = ((l.dropWhile isPySpace).reverse.dropWhile isPySpace).length := List.length_reverse _
    _ ≤ (l.dropWhile isPySpace).reverse.length := (List.dropWhile_sublist _).length_le
    _ = (l.dropWhile isPySpace).length := List.length_reverse _
    _ ≤ l.length := (List.dropWhile_sublist _).length_le

theorem dropWhile_eq_self_of_head (p : Char → Bool) (l : List Char)
    (h : ∀ c, l.head? = some c → p c = false) : l.dropWhile p = l := by
  cases l with
  | nil => rfl
  | cons a t =>
    have : p a = false := h a rfl
    simp [List.dropWhile_cons, this]

theorem pyStrip_eq_self (l : List Char) (h : ∀ c ∈ l, isPySpace c = false) :
    pyStrip l = l := by
  unfold pyStrip
  have h1 : l.dropWhile isPySpace = l := by
    apply dropWhile_eq_self_of_head
    intro c hc
    exact h c (List.mem_of_mem_head? hc)
  rw [h1]
  have h2 : l.reverse.dropWhile isPySpace = l.reverse := by
    apply dropWhile_eq_self_of_head
    intro c hc
    exact h c (by simpa using List.mem_of_mem_head? hc)
  rw [h2, List.reverse_reverse]

theorem getLast?_dropWhile (p : Char → Bool) (c : Char) :
    ∀ l : List Char, l.getLast? = some c → p c = false →
      (l.dropWhile p).getLast? = some c := by
  intro l
  induction l with
  | nil => intro h; simp at h
  | cons a t ih =>
    intro h hc
    cases t with
    | nil =>
      simp at h
      subst h
      simp [List.dropWhile_cons, hc]
    | cons b t' =>
      rw [List.getLast?_cons_cons] at h
      rw [List.dropWhile_cons]
      split
      · exact ih h hc
      · rw [List.getLast?_cons_cons]
        exact h

theorem pyStrip_getLast (l : List Char) (c : Char) (h : l.getLast? = some c)
    (hc : isPySpace c = false) :
    pyStrip l ≠ [] ∧ (pyStrip l).getLast? = some c := by
  unfold pyStrip
  have h1 : (l.dropWhile isPySpace).getLast? = some c := getLast?_dropWhile _ _ l h hc
  have h2 : (l.dropWhile isPySpace).reverse.head? = some c := by
    rw [List.head?_reverse]; exact h1
  have h3 : (l.dropWhile isPySpace).reverse.dropWhile isPySpace
      = (l.dropWhile isPySpace).reverse := by
    apply dropWhile_eq_self_of_head
    intro d hd
    rw [h2] at hd
    cases hd
    exact hc
  rw [h3, List.reverse_reverse]
  constructor
  · intro hnil
    rw [hnil] at h1
    simp at h1
  · exact h1

-- ### Length bound of the chunker (claim C4)

theorem chunkAux_length_bound (max_size : Nat) (S : List (List Char)) :
    ∀ (sents : List (List Char)) (cur : List Char),
      (∀ s ∈ sents, s ∈ S) →
      (cur = [] ∨ cur.length ≤ max_size + 1 ∨
        ∃ s ∈ S, max_size < s.length ∧ cur.length ≤ s.length + 1) →
      ∀ c ∈ chunkAux max_size sents cur,
        c.length ≤ max_size + 1 ∨
          ∃ s ∈ S, max_size < s.length ∧ c.length ≤ s.length + 1 := by
  intro sents
  induction sents with
  | nil =>
    intro cur _ hinv c hc
    rw [chunkAux] at hc
    rcases hinv with h | h | ⟨s, hsS, hsl, hcl⟩
    · rw [if_pos h] at hc; simp at hc
    · have hcur : cur ≠ [] := by
        intro h0; rw [h0, if_pos rfl] at hc; simp at hc
      rw [if_neg hcur] at hc
      simp at hc
      subst hc
      exact Or.inl (le_trans (pyStrip_length_le cur) h)
    · have hcur : cur ≠ [] := by
        intro h0; rw [h0, if_pos rfl] at hc; simp at hc
      rw [if_neg hcur] at hc
      simp at hc
      subst hc
      exact Or.inr ⟨s, hsS, hsl, le_trans (pyStrip_length_le cur) hcl⟩
  | cons s rest ih =>
    intro cur hsub hinv c hc
    have hsS : s ∈ S := hsub s (List.mem_cons_self _ _)
    have hrest : ∀ x ∈ rest, x ∈ S := fun x hx => hsub x (List.mem_cons_of_mem _ hx)
    rw [chunkAux] at hc
    by_cases hacc : cur.length + s.length ≤ max_size
    · rw [if_pos hacc] at hc
      refine ih _ hrest ?_ c hc
      right; left
      simp only [List.length_append, List.length_cons, List.length_nil]
      omega
    · rw [if_neg hacc] at hc
      rcases List.mem_append.mp hc with h | h
      · -- the emitted chunk comes from the invariant on `cur`
        rcases hinv with h0 | h0 | ⟨t, htS, htl, hcl⟩
        · rw [if_pos h0] at h; simp at h
        · have hcur : cur ≠ [] := by
            intro hnil; rw [hnil, if_pos rfl] at h; simp at h
          rw [if_neg hcur] at h
          simp at h
          subst h
          exact Or.inl (le_trans (pyStrip_length_le cur) h0)
        · have hcur : cur ≠ [] := by
            intro hnil; rw [hnil, if_pos rfl] at h; simp at h
          rw [if_neg hcur] at h
          simp at h
          subst h
          exact Or.inr ⟨t, htS, htl, le_trans (pyStrip_length_le cur) hcl⟩
      · refine ih _ hrest ?_ c h
        by_cases hs : s.length ≤ max_size
        · right; left
          simp only [List.length_append, List.length_cons, List.length_nil]
          omega
        · right; right
          exact ⟨s, hsS, by omega, by
            simp only [List.length_append, List.length_cons, List.length_nil]; omega⟩

-- ### Content of the chunker output (claims C5, C10)

theorem chunkAux_flatten (max_size : Nat) :
    ∀ (sents : List (List Char)) (cur : List Char),
      (∀ s ∈ sents, ∀ c ∈ s, isPySpace c = false) →
      (∀ c ∈ cur, isPySpace c = false) →
      (chunkAux max_size sents cur).flatten
        = cur ++ (sents.map (· ++ ['。'])).flatten := by
  intro sents
  induction sents with
  | nil =>
    intro cur _ hcur
    rw [chunkAux]
    by_cases h : cur = []
    · rw [if_pos h, h]; simp
    · rw [if_neg h]
      simp [pyStrip_eq_self cur hcur]
  | cons s rest ih =>
    intro cur hs hcur
    have hsw : ∀ c ∈ s, isPySpace c = false := hs s (List.mem_cons_self _ _)
    have hrest : ∀ x ∈ rest, ∀ c ∈ x, isPySpace c = false :=
      fun x hx => hs x (List.mem_cons_of_mem _ hx)
    have hterm : ∀ c ∈ ['。'], isPySpace c = false := by decide
    rw [chunkAux]
    by_cases hacc : cur.length + s.length ≤ max_size
    · rw [if_pos hacc]
      rw [ih _ hrest (by
        intro c hc
        rcases List.mem_append.mp hc with h | h
        · rcases List.mem_append.mp h with h' | h'
          · exact hcur c h'
          · exact hsw c h'
        · exact hterm c h)]
      simp [List.append_assoc]
    · rw [if_neg hacc]
      rw [List.flatten_append]
      rw [ih _ hrest (by
        intro c hc
        rcases List.mem_append.mp hc with h | h
        · exact hsw c h
        · exact hterm c h)]
      by_cases h : cur = []
      · rw [if_pos h, h]; simp
      · rw [if_neg h]
        simp [pyStrip_eq_self cur hcur, List.append_assoc]

theorem chunkAux_getLast (max_size : Nat) :
    ∀ (sents : List (List Char)) (cur : List Char),
      (cur = [] ∨ cur.getLast? = some '。') →
      ∀ c ∈ chunkAux max_size sents cur,
        c ≠ [] ∧ c.getLast? = some '。' := by
  intro sents
  induction sents with
  | nil =>
    intro cur hinv c hc
    rw [chunkAux] at hc
    rcases hinv with h | h
    · rw [if_pos h] at hc; simp at hc
    · have hcur : cur ≠ [] := by
        intro h0; rw [h0] at h; simp at h
      rw [if_neg hcur] at hc
      simp at hc
      subst hc
      exact pyStrip_getLast cur '。' h (by decide)
  | cons s rest ih =>
    intro cur hinv c hc
    rw [chunkAux] at hc
    by_cases hacc : cur.length + s.length ≤ max_size
    · rw [if_pos hacc] at hc
      refine ih _ ?_ c hc
      right
      rw [List.append_assoc, ← List.append_assoc, List.getLast?_concat]
    · rw [if_neg hacc] at hc
      rcases List.mem_append.mp hc with h | h
      · rcases hinv with h0 | h0
        · rw [if_pos h0] at h; simp at h
        · have hcur : cur ≠ [] := by
            intro hnil; rw [hnil] at h0; simp at h0
          rw [if_neg hcur] at h
          simp at h
          subst h
          exact pyStrip_getLast cur '。' h0 (by decide)
      · refine ih _ ?_ c h
        right
        rw [List.getLast?_concat]

theorem filter_term_flatten :
    ∀ L : List (List Char), (∀ s ∈ L, ∀ c ∈ s, isSentenceEnd c = false) →
      ((L.map (· ++ ['。'])).flatten).filter (fun c => c != '。') = L.flatten := by
  intro L
  induction L with
  | nil => intro _; rfl
  | cons s rest ih =>
    intro h
    have hs : ∀ c ∈ s, isSentenceEnd c = false := h s (List.mem_cons_self _ _)
    have hrest : ∀ x ∈ rest, ∀ c ∈ x, isSentenceEnd c = false :=
      fun x hx => h x (List.mem_cons_of_mem _ hx)
    simp only [List.map_cons, List.flatten_cons, List.filter_append]
    rw [ih hrest]
    have h1 : s.filter (fun c => c != '。') = s := by
      apply List.filter_eq_self.mpr
      intro c hc
      have hne : c ≠ '。' := by
        intro he
        subst he
        exact absurd (hs '。' hc) (by decide)
      simpa using hne
    have h2 : List.filter (fun c => c != '。') ['。'] = [] := by decide
    rw [h1, h2, List.append_nil]

/-- Claim C4, counterexample: with maximum size 5 and input "abc。d", no single
sentence exceeds the maximum, yet the produced chunk "abc。d。" has length 6 > 5,
because the acceptance test of the accumulation loop ignores the terminator it
appends after each accepted sentence. -/
theorem claim_C4_counterexample :
    ¬ (∀ c ∈ chunk_text (s2l "abc。d") 5,
        c.length ≤ 5 ∨ ∃ s ∈ splitSentences (s2l "abc。d"), 5 < s.length) := by
  decide

/-- Claim C4 (amended): for every input text and maximum chunk size, every chunk
produced by chunk_text has length at most max_size + 1 (the accumulation test
does not count the terminator appended after the accepted sentence), except when
a single sentence alone exceeds the maximum, in which case that sentence with
its terminator becomes its own oversized chunk (length at most sentence + 1),
with no further splitting. -/
theorem claim_C4_length_bound (text : List Char) (max_size : Nat) :
    ∀ c ∈ chunk_text text max_size,
      c.length ≤ max_size + 1 ∨
        ∃ s ∈ splitSentences text, max_size < s.length ∧ c.length ≤ s.length + 1 := by
  intro c hc
  exact chunkAux_length_bound max_size (splitSentences text) (splitSentences text) []
    (fun _ hs => hs) (Or.inl rfl) c hc

/-- Claim C4, witness for the amended bound at a concrete input. -/
theorem claim_C4_witness :
    s2l "ab。" ∈ chunk_text (s2l "ab。cd") 3 ∧
      ((s2l "ab。").length ≤ 3 + 1 ∨
        ∃ s ∈ splitSentences (s2l "ab。cd"), 3 < s.length ∧ (s2l "ab。").length ≤ s.length + 1) :=
  ⟨by decide, claim_C4_length_bound (s2l "ab。cd") 3 (s2l "ab。") (by decide)⟩

/-- The strip model covers the non-ASCII whitespace str.strip() removes:
a chunk with a leading no-break space U+00A0 loses it. -/
theorem pyStrip_nbsp : pyStrip ['\u00a0', 'a'] = ['a'] := by decide

/-- Claim C5, counterexample: on the input " a" (leading space), the chunker
strips the chunk " a。" to "a。", so concatenating the chunks and removing the
inserted terminators yields "a", not the original sentence content " a":
reconstruction is not lossless. -/
theorem claim_C5_counterexample :
    ((chunk_text (s2l " a") 5).flatten.filter (fun c => c != '。'))
      ≠ (splitSentences (s2l " a")).flatten := by
  decide

/-- Claim C5 (amended): for every input text whose only whitespace characters
are line breaks (so that the strip applied to each chunk removes nothing) and
every maximum chunk size, concatenating the chunks of chunk_text and removing
the inserted terminators reconstructs the concatenated sentence content of
splitSentences losslessly. -/
theorem claim_C5_reconstruction (text : List Char) (max_size : Nat)
    (hws : ∀ c ∈ text, isPySpace c = true → c = '\n') :
    (chunk_text text max_size).flatten.filter (fun c => c != '。')
      = (splitSentences text).flatten := by
  have hsent : ∀ s ∈ splitSentences text, ∀ c ∈ s, isPySpace c = false := by
    intro s hs c hc
    rcases mem_splitSentences text s hs c hc with ⟨hct, hcd⟩
    cases hb : isPySpace c with
    | false => rfl
    | true =>
      have hcn : c = '\n' := hws c hct hb
      subst hcn
      exact absurd hcd (by decide)
  rw [chunk_text, chunkAux_flatten max_size _ [] hsent (by simp)]
  rw [List.nil_append]
  exact filter_term_flatten _ (fun s hs c hc => (mem_splitSentences text s hs c hc).2)

/-- Claim C5, witness for the amended reconstruction at a concrete input. -/
theorem claim_C5_witness :
    (∀ c ∈ s2l "ab。cd", isPySpace c = true → c = '\n') ∧
      (chunk_text (s2l "ab。cd") 3).flatten.filter (fun c => c != '。')
        = (splitSentences (s2l "ab。cd")).flatten :=
  ⟨by decide, claim_C5_reconstruction (s2l "ab。cd") 3 (by decide)⟩

/-- Claim C10: for every input text and maximum chunk size, every chunk produced
by chunk_text is non-empty and ends in the terminator 。; in particular on the
empty input the chunker returns the one-element list containing "。". -/
theorem claim_C10_chunks_terminated :
    ∀ (text : List Char) (max_size : Nat),
      (∀ c ∈ chunk_text text max_size, c ≠ [] ∧ c.getLast? = some '。') ∧
        chunk_text [] max_size = [['。']] := by
  intro text max_size
  constructor
  · intro c hc
    exact chunkAux_getLast max_size (splitSentences text) [] (Or.inl rfl) c hc
  · rw [chunk_text]
    have h1 : splitSentences ([] : List Char) = [[]] := rfl
    rw [h1, chunkAux, if_pos (by simp)]
    have h2 : ([] : List Char) ++ [] ++ ['。'] = ['。'] := rfl
    rw [h2, chunkAux, if_neg (by simp)]
    rw [pyStrip_eq_self _ (by decide)]

/-- Claim C10, witness at a concrete input. -/
theorem claim_C10_witness :
    s2l "ab。" ∈ chunk_text (s2l "ab。cd") 3 ∧
      (s2l "ab。" ≠ [] ∧ (s2l "ab。").getLast? = some '。') :=
  ⟨by decide, (claim_C10_chunks_terminated (s2l "ab。cd") 3).1 _ (by decide)⟩

-- ### Data model (text_extractor.py lines 23-61) and conversion from client output

/-- A Character record; the four trailing fields come from `attrs.get(key)`
with no default and are therefore optional. -/
structure Character where
  name : List Char
  gender : List Char
  age : Option (List Char)
  occupation : Option (List Char)
  appearance : Option (List Char)
  personality : Option (List Char)
  deriving DecidableEq

structure Emotion where
  emotion_type : List Char
  subject : List Char
  target : Option (List Char)
  intensity : List Char
  quote : List Char
  deriving DecidableEq

structure Relationship where
  person1 : List Char
  person2 : List Char
  relation_type : List Char
  direction : List Char
  evidence : List Char
  deriving DecidableEq

/-- One extraction returned by the client: an `extraction_text` span and a
loosely-typed attribute map, modelled as an association list. -/
structure ExtractionItem where
  extraction_text : List Char
  attributes : List (List Char × List Char)
  deriving DecidableEq

/-- Python `attrs.get(key)`: `None` when the key is absent. -/
def lookupAttr (attrs : List (List Char × List Char)) (k : List Char) :
    Option (List Char) :=
  (attrs.find? (fun p => p.1 == k)).map (·.2)

/-- Python `attrs.get(key, default)`. -/
def getAttrD (attrs : List (List Char × List Char)) (k d : List Char) : List Char :=
  (lookupAttr attrs k).getD d

/-- Python `x or y` on strings: the right operand when the left is falsy
(empty). -/
def pyOr (a b : List Char) : List Char := if a = [] then b else a

/-- Character construction from one extraction (lines 342-349, identical at
227-234 and 520-527). -/
def mkCharacter (e : ExtractionItem) : Character :=
  { name := pyOr e.extraction_text (getAttrD e.attributes (s2l "name") (s2l "不明"))
    gender := getAttrD e.attributes (s2l "gender") (s2l "不明")
    age := lookupAttr e.attributes (s2l "age")
    occupation := lookupAttr e.attributes (s2l "occupation")
    appearance := lookupAttr e.attributes (s2l "appearance")
    personality := lookupAttr e.attributes (s2l "personality") }

/-- Emotion construction from one extraction (lines 387-393). -/
def mkEmotion (e : ExtractionItem) : Emotion :=
  { emotion_type := getAttrD e.attributes (s2l "emotion_type") (s2l "不明")
    subject := getAttrD e.attributes (s2l "subject") (s2l "不明")
    target := lookupAttr e.attributes (s2l "target")
    intensity := getAttrD e.attributes (s2l "intensity") (s2l "普通")
    quote := pyOr e.extraction_text (getAttrD e.attributes (s2l "quote") []) }

/-- Relationship construction from one extraction (lines 430-436). -/
def mkRelationship (e : ExtractionItem) : Relationship :=
  { person1 := getAttrD e.attributes (s2l "person1") (s2l "不明")
    person2 := getAttrD e.attributes (s2l "person2") (s2l "不明")
    relation_type := getAttrD e.attributes (s2l "relation_type") (s2l "不明")
    direction := getAttrD e.attributes (s2l "direction") (s2l "一方向")
    evidence := pyOr e.extraction_text (getAttrD e.attributes (s2l "evidence") []) }

-- ### Deduplication (lines 458-484)

/-- The identity key of `_deduplicate_characters` (line 465):
`char.name.replace(" ", "").replace("　", "").lower()`.  `Char.toLower`
models Python `str.lower` on the character repertoire in use. -/
def charKey (c : Character) : List Char :=
  (c.name.filter (fun ch => !(ch == ' ') && !(ch == '　'))).map Char.toLower

/-- The identity key of `_deduplicate_relationships` (line 479):
the string f-join person1 + "_" + person2 + "_" + relation_type. -/
def relKey (r : Relationship) : List Char :=
  r.person1 ++ ['_'] ++ r.person2 ++ ['_'] ++ r.relation_type

/-- The shared seen-set loop of both deduplication routines: walk the list,
keep an element when its key has not been seen, record the key. -/
def dedupByAux {α κ : Type} [DecidableEq κ] (key : α → κ) :
    List κ → List α → List α
  | _, [] => []
  | seen, x :: rest =>
    if key x ∈ seen then dedupByAux key seen rest
    else x :: dedupByAux key (key x :: seen) rest

/-- `JapaneseTextExtractor._deduplicate_characters` (lines 458-470). -/
def deduplicate_characters (l : List Character) : List Character :=
  dedupByAux charKey [] l

/-- `JapaneseTextExtractor._deduplicate_relationships` (lines 472-484). -/
def deduplicate_relationships (l : List Relationship) : List Relationship :=
  dedupByAux relKey [] l

theorem dedupByAux_sublist {α κ : Type} [DecidableEq κ] (key : α → κ) :
    ∀ (seen : List κ) (l : List α), (dedupByAux key seen l).Sublist l := by
  intro seen l
  induction l generalizing seen with
  | nil => simp [dedupByAux]
  | cons x rest ih =>
    rw [dedupByAux]
    split
    · exact (ih seen).cons x
    · exact (ih (key x :: seen)).cons₂ x

theorem mem_dedupByAux {α κ : Type} [DecidableEq κ] (key : α → κ) :
    ∀ (seen : List κ) (l : List α) (x : α),
      x ∈ dedupByAux key seen l ↔
        key x ∉ seen ∧ (l.filter (fun y => decide (key y = key x))).head? = some x := by
  intro seen l
  induction l generalizing seen with
  | nil => intro x; simp [dedupByAux]
  | cons c rest ih =>
    intro x
    rw [dedupByAux]
    by_cases hk : key c = key x
    · rw [List.filter_cons_of_pos (by simpa using hk)]
      by_cases hseen : key c ∈ seen
      · rw [if_pos hseen, ih seen x]
        have hxseen : key x ∈ seen := hk ▸ hseen
        constructor
        · rintro ⟨hns, _⟩
          exact absurd hxseen hns
        · rintro ⟨hns, _⟩
          exact absurd hxseen hns
      · rw [if_neg hseen]
        simp only [List.mem_cons, List.head?_cons, Option.some.injEq]
        rw [ih (key c :: seen) x]
        constructor
        · rintro (rfl | ⟨hns, _⟩)
          · exact ⟨hk ▸ hseen, rfl⟩
          · exact absurd (by rw [← hk]; exact List.mem_cons_self _ _) hns
        · rintro ⟨_, rfl⟩
          exact Or.inl rfl
    · rw [List.filter_cons_of_neg (by simpa using hk)]
      by_cases hseen : key c ∈ seen
      · rw [if_pos hseen]
        exact ih seen x
      · rw [if_neg hseen]
        simp only [List.mem_cons]
        rw [ih (key c :: seen) x]
        constructor
        · rintro (rfl | ⟨hns, hh⟩)
          · exact absurd rfl hk
          · exact ⟨fun hmem => hns (List.mem_cons_of_mem _ hmem), hh⟩
        · rintro ⟨hns, hh⟩
          refine Or.inr ⟨?_, hh⟩
          intro hmem
          rcases List.mem_cons.mp hmem with he | he
          · exact hk he.symm
          · exact hns he

theorem dedupByAux_idem {α κ : Type} [DecidableEq κ] (key : α → κ) :
    ∀ (seen : List κ) (l : List α),
      dedupByAux key seen (dedupByAux key seen l) = dedupByAux key seen l := by
  intro seen l
  induction l generalizing seen with
  | nil => simp [dedupByAux]
  | cons x rest ih =>
    rw [dedupByAux]
    split
    · exact ih seen
    · rename_i hns
      rw [dedupByAux, if_neg hns]
      congr 1
      exact ih (key x :: seen)

/-- Claim C7: for every list of characters and every list of relationships,
deduplication is idempotent, its output is a sublist of its input (so the
first-seen order of the survivors is preserved), and an element survives
exactly when it is the first element of the input carrying its key (the first
occurrence of each colliding group wins). -/
theorem claim_C7_dedup_idempotent (lc : List Character) (lr : List Relationship) :
    deduplicate_characters (deduplicate_characters lc) = deduplicate_characters lc
    ∧ deduplicate_relationships (deduplicate_relationships lr) = deduplicate_relationships lr
    ∧ (deduplicate_characters lc).Sublist lc
    ∧ (deduplicate_relationships lr).Sublist lr
    ∧ (∀ x, x ∈ deduplicate_characters lc ↔
        (lc.filter (fun y => decide (charKey y = charKey x))).head? = some x)
    ∧ (∀ x, x ∈ deduplicate_relationships lr ↔
        (lr.filter (fun y => decide (relKey y = relKey x))).head? = some x) := by
  refine ⟨dedupByAux_idem charKey [] lc, dedupByAux_idem relKey [] lr,
    dedupByAux_sublist charKey [] lc, dedupByAux_sublist relKey [] lr, ?_, ?_⟩
  · intro x
    rw [deduplicate_characters, mem_dedupByAux]
    simp
  · intro x
    rw [deduplicate_relationships, mem_dedupByAux]
    simp

/-- First concrete relationship for the C8 counterexample: person1 contains an
underscore. -/
def rC8a : Relationship :=
  { person1 := s2l "a_b", person2 := s2l "c", relation_type := s2l "t"
    direction := s2l "双方向", evidence := s2l "e1" }

/-- Second concrete relationship for the C8 counterexample: a different ordered
triple producing the same underscore-joined key. -/
def rC8b : Relationship :=
  { person1 := s2l "a", person2 := s2l "b_c", relation_type := s2l "t"
    direction := s2l "双方向", evidence := s2l "e2" }

/-- Claim C8, counterexample: two relationship records whose ordered triples
(person1, person2, relation_type) differ nevertheless collide — the dedup key
is the underscore-join of the three fields, which is not injective when a name
contains an underscore — and deduplication drops the second record.  So
"collide iff the ordered triples match exactly" is false on the code. -/
theorem claim_C8_counterexample :
    relKey rC8a = relKey rC8b
    ∧ ¬(rC8a.person1 = rC8b.person1 ∧ rC8a.person2 = rC8b.person2
        ∧ rC8a.relation_type = rC8b.relation_type)
    ∧ deduplicate_relationships [rC8a, rC8b] = [rC8a] := by
  decide

theorem append_underscore_inj :
    ∀ (a b y y' : List Char), '_' ∉ a → '_' ∉ b →
      a ++ '_' :: y = b ++ '_' :: y' → a = b ∧ y = y' := by
  intro a
  induction a with
  | nil =>
    intro b y y' _ hb heq
    cases b with
    | nil => simpa using heq
    | cons d b' =>
      rw [List.nil_append, List.cons_append] at heq
      injection heq with hc _
      exact absurd (hc ▸ List.mem_cons_self d b') hb
  | cons c a' ih =>
    intro b y y' ha hb heq
    cases b with
    | nil =>
      rw [List.nil_append, List.cons_append] at heq
      injection heq with hc _
      exact absurd (hc ▸ List.mem_cons_self c a') ha
    | cons d b' =>
      rw [List.cons_append, List.cons_append] at heq
      injection heq with hc ht
      have ha' : '_' ∉ a' := fun h => ha (List.mem_cons_of_mem _ h)
      have hb' : '_' ∉ b' := fun h => hb (List.mem_cons_of_mem _ h)
      rcases ih b' y y' ha' hb' ht with ⟨h1, h2⟩
      exact ⟨by rw [hc, h1], h2⟩

/-- Claim C8 (amended): the collision predicate of relationship deduplication
is equality of the underscore-joined key person1_person2_relation_type; for
records whose person fields contain no underscore this coincides with exact
equality of the ordered triple (person1, person2, relation_type).  The first
occurrence wins (claim C7's characterization). -/
theorem claim_C8_collision_key (r1 r2 : Relationship)
    (h1 : '_' ∉ r1.person1) (h2 : '_' ∉ r1.person2)
    (h3 : '_' ∉ r2.person1) (h4 : '_' ∉ r2.person2) :
    relKey r1 = relKey r2 ↔
      r1.person1 = r2.person1 ∧ r1.person2 = r2.person2
        ∧ r1.relation_type = r2.relation_type := by
  have hk : ∀ r : Relationship,
      relKey r = r.person1 ++ '_' :: (r.person2 ++ '_' :: r.relation_type) := by
    intro r
    simp [relKey]
  constructor
  · intro heq
    rw [hk r1, hk r2] at heq
    rcases append_underscore_inj _ _ _ _ h1 h3 heq with ⟨e1, heq2⟩
    rcases append_underscore_inj _ _ _ _ h2 h4 heq2 with ⟨e2, e3⟩
    exact ⟨e1, e2, e3⟩
  · rintro ⟨e1, e2, e3⟩
    rw [hk r1, hk r2, e1, e2, e3]

/-- First underscore-free record for the C8 witness. -/
def rC8w1 : Relationship :=
  { person1 := s2l "メロス", person2 := s2l "妹", relation_type := s2l "兄妹"
    direction := s2l "双方向", evidence := s2l "x" }

/-- Second underscore-free record for the C8 witness. -/
def rC8w2 : Relationship :=
  { person1 := s2l "メロス", person2 := s2l "妹", relation_type := s2l "兄妹"
    direction := s2l "双方向", evidence := s2l "y" }

/-- Claim C8, witness for the amended statement at concrete underscore-free
records. -/
theorem claim_C8_witness :
    ('_' ∉ rC8w1.person1 ∧ '_' ∉ rC8w1.person2 ∧ '_' ∉ rC8w2.person1 ∧ '_' ∉ rC8w2.person2)
    ∧ (relKey rC8w1 = relKey rC8w2 ↔
        rC8w1.person1 = rC8w2.person1 ∧ rC8w1.person2 = rC8w2.person2
          ∧ rC8w1.relation_type = rC8w2.relation_type) :=
  ⟨by decide, claim_C8_collision_key rC8w1 rC8w2 (by decide) (by decide) (by decide) (by decide)⟩

/-- Claim C9, counterexample: the optional textual fields of a constructed
record do not default to an unknown sentinel — they are None when the
corresponding attribute is absent (Python attrs.get with no default), so a
returned record can have missing/null fields. -/
theorem claim_C9_counterexample :
    (mkCharacter { extraction_text := s2l "x", attributes := [] }).age = none
    ∧ (mkEmotion { extraction_text := s2l "x", attributes := [] }).target = none :=
  ⟨rfl, rfl⟩

/-- Claim C9 (amended): every required (non-optional) textual field of a
constructed record receives an explicit default when its attribute is absent —
不明 for names, genders, emotion and relation types and subjects, 普通 for
intensity, 一方向 for direction, and the empty string for quote and evidence
when the extraction span is also empty — so required fields are never missing;
the optional fields (age, occupation, appearance, personality, target) are
None when absent. -/
theorem claim_C9_required_defaults (e : ExtractionItem) :
    (lookupAttr e.attributes (s2l "gender") = none → (mkCharacter e).gender = s2l "不明")
    ∧ (e.extraction_text = [] → lookupAttr e.attributes (s2l "name") = none →
        (mkCharacter e).name = s2l "不明")
    ∧ (lookupAttr e.attributes (s2l "emotion_type") = none →
        (mkEmotion e).emotion_type = s2l "不明")
    ∧ (lookupAttr e.attributes (s2l "subject") = none → (mkEmotion e).subject = s2l "不明")
    ∧ (lookupAttr e.attributes (s2l "intensity") = none → (mkEmotion e).intensity = s2l "普通")
    ∧ (e.extraction_text = [] → lookupAttr e.attributes (s2l "quote") = none →
        (mkEmotion e).quote = [])
    ∧ (lookupAttr e.attributes (s2l "person1") = none → (mkRelationship e).person1 = s2l "不明")
    ∧ (lookupAttr e.attributes (s2l "person2") = none → (mkRelationship e).person2 = s2l "不明")
    ∧ (lookupAttr e.attributes (s2l "relation_type") = none →
        (mkRelationship e).relation_type = s2l "不明")
    ∧ (lookupAttr e.attributes (s2l "direction") = none →
        (mkRelationship e).direction = s2l "一方向")
    ∧ (e.extraction_text = [] → lookupAttr e.attributes (s2l "evidence") = none →
        (mkRelationship e).evidence = []) := by
  refine ⟨?_, ?_, ?_, ?_, ?_, ?_, ?_, ?_, ?_, ?_, ?_⟩ <;>
    (intro h; try intro h')
  all_goals simp_all [mkCharacter, mkEmotion, mkRelationship, getAttrD, pyOr]

/-- Claim C9, witness for the amended statement at a concrete extraction with
no attributes and an empty span. -/
theorem claim_C9_witness :
    (mkCharacter { extraction_text := [], attributes := [] }).gender = s2l "不明"
    ∧ (mkCharacter { extraction_text := [], attributes := [] }).name = s2l "不明"
    ∧ (mkEmotion { extraction_text := [], attributes := [] }).intensity = s2l "普通"
    ∧ (mkRelationship { extraction_text := [], attributes := [] }).direction = s2l "一方向"
    ∧ (mkRelationship { extraction_text := [], attributes := [] }).evidence = [] :=
  ⟨(claim_C9_required_defaults _).1 rfl,
   (claim_C9_required_defaults _).2.1 rfl rfl,
   (claim_C9_required_defaults _).2.2.2.2.1 rfl,
   (claim_C9_required_defaults _).2.2.2.2.2.2.2.2.2.1 rfl,
   (claim_C9_required_defaults _).2.2.2.2.2.2.2.2.2.2 rfl rfl⟩

-- ### The extraction orchestrator (extract_all and the safe extraction layer)

/-- The three record kinds. -/
inductive Kind where
  | character
  | emotion
  | relationship
  deriving DecidableEq

/-- One invocation of the external extraction client: the record kind whose
prompt/examples are passed, the text, and whether the scaling parameters
(extraction_passes / max_workers / max_char_buffer) are passed. -/
structure Call where
  kind : Kind
  text : List Char
  scaled : Bool
  deriving DecidableEq

/-- Outcome of one client call: a list of extractions, or a raised exception
with its message text and whether it is a json.JSONDecodeError. -/
inductive CallOutcome where
  | ok (items : List ExtractionItem)
  | exn (msg : List Char) (isJsonDecode : Bool)
  deriving DecidableEq

/-- A raised Python exception, as far as extract_all inspects it. -/
structure PyExn where
  msg : List Char
  isJsonDecode : Bool
  deriving DecidableEq

/-- Observable effect state threaded through a run: the list of client calls
made so far and the seconds slept so far (time.sleep arguments). -/
structure St where
  log : List Call
  sleeps : List Nat
  deriving DecidableEq

/-- A client oracle: the outcome of a call may depend on how many calls were
made before it (so a call can fail once and succeed on a retry). -/
def Client : Type := Nat → Call → CallOutcome

/-- Perform one client call: record it in the log and ask the oracle. -/
def callClient (cl : Client) (σ : St) (c : Call) : St × CallOutcome :=
  ({ σ with log := σ.log ++ [c] }, cl σ.log.length c)

/-- Model of time.sleep. -/
def sleep (σ : St) (n : Nat) : St := { σ with sleeps := σ.sleeps ++ [n] }

/-- The extractions an outcome contributes after the handlers ran: a raised
exception contributes nothing. -/
def outcomeItems : CallOutcome → List ExtractionItem
  | .ok items => items
  | .exn _ _ => []

/-- An outcome that is not a json.JSONDecodeError (so the narrowing retry is
not entered). -/
def notJsonErr : CallOutcome → Prop
  | .exn _ true => False
  | _ => True

instance : ∀ o, Decidable (notJsonErr o) := by
  intro o
  rcases o with _ | ⟨m, b⟩
  · exact isTrue trivial
  · cases b
    · exact isTrue trivial
    · exact isFalse id

/-- The common body of `_safe_extract_characters` / `_safe_extract_emotions` /
`_safe_extract_relationships` (lines 327-456; the three differ only in prompt,
examples and record constructor, applied by the wrappers below): call the
client; on success return the extractions; on a json.JSONDecodeError with text
longer than 1000 characters, re-chunk at granularity 1000 and recurse on at
most the first 3 sub-chunks (`smaller_chunks[:3]`), concatenating the results,
while a bare except swallows nothing here because the recursion itself never
raises; on a json.JSONDecodeError with short text, or on any other exception,
return the empty list.  `fuel` bounds the recursion depth; `none` means the
recursion exceeds every finite depth, i.e. it does not terminate.  The
sub-chunk loop is unrolled (the slice has at most 3 elements) so that the
recursion is structural in `fuel`. -/
def safeExtractItems (cl : Client) (k : Kind) :
    Nat → St → List Char → Option (St × List ExtractionItem)
  | 0, _, _ => none
  | fuel + 1, σ, text =>
    match callClient cl σ ⟨k, text, false⟩ with
    | (σ1, .ok items) => some (σ1, items)
    | (σ1, .exn _ true) =>
      if 1000 < text.length then
        match (chunk_text text 1000).take 3 with
        | [] => some (σ1, [])
        | [c1] =>
          match safeExtractItems cl k fuel σ1 c1 with
          | none => none
          | some (σ2, r1) => some (σ2, r1)
        | [c1, c2] =>
          match safeExtractItems cl k fuel σ1 c1 with
          | none => none
          | some (σ2, r1) =>
            match safeExtractItems cl k fuel σ2 c2 with
            | none => none
            | some (σ3, r2) => some (σ3, r1 ++ r2)
        | c1 :: c2 :: c3 :: _ =>
          match safeExtractItems cl k fuel σ1 c1 with
          | none => none
          | some (σ2, r1) =>
            match safeExtractItems cl k fuel σ2 c2 with
            | none => none
            | some (σ3, r2) =>
              match safeExtractItems cl k fuel σ3 c3 with
              | none => none
              | some (σ4, r3) => some (σ4, r1 ++ r2 ++ r3)
      else
        some (σ1, [])
    | (σ1, .exn _ false) => some (σ1, [])

/-- `_safe_extract_characters` (lines 327-370): the per-item conversion to
Character records commutes with the concatenations of the narrowing loop, so
it is applied to the collected extractions. -/
def safe_extract_characters (cl : Client) (fuel : Nat) (σ : St) (text : List Char) :
    Option (St × List Character) :=
  (safeExtractItems cl .character fuel σ text).map (fun p => (p.1, p.2.map mkCharacter))

/-- `_safe_extract_emotions` (lines 372-413). -/
def safe_extract_emotions (cl : Client) (fuel : Nat) (σ : St) (text : List Char) :
    Option (St × List Emotion) :=
  (safeExtractItems cl .emotion fuel σ text).map (fun p => (p.1, p.2.map mkEmotion))

/-- `_safe_extract_relationships` (lines 415-456). -/
def safe_extract_relationships (cl : Client) (fuel : Nat) (σ : St) (text : List Char) :
    Option (St × List Relationship) :=
  (safeExtractItems cl .relationship fuel σ text).map (fun p => (p.1, p.2.map mkRelationship))

/-- The merged result batch of extract_all. -/
structure ExtractResults where
  characters : List Character
  emotions : List Emotion
  relationships : List Relationship
  deriving DecidableEq

/-- The three safe extractions run in sequence on one text, in the evaluation
order of the dict literal (characters, emotions, relationships; lines 157-161
and 201-205).  None of the three can raise: each `_safe_extract_*` catches
json.JSONDecodeError and every other Exception internally and returns a list,
which is why the rate-limit handler of the chunk loop (lines 172-191) is
unreachable. -/
def safe3 (cl : Client) (fuel : Nat) (σ : St) (text : List Char) :
    Option (St × ExtractResults) :=
  match safe_extract_characters cl fuel σ text with
  | none => none
  | some (σ1, cs) =>
    match safe_extract_emotions cl fuel σ1 text with
    | none => none
    | some (σ2, es) =>
      match safe_extract_relationships cl fuel σ2 text with
      | none => none
      | some (σ3, rs) => some (σ3, ⟨cs, es, rs⟩)

/-- The chunk loop of extract_all (lines 154-191): process each chunk with the
three safe extractions, accumulate per-kind results in chunk order, and sleep
2 seconds between chunks (after every chunk except the last).  The
`except` branch of the loop body — wait 60 seconds and retry the chunk once
when the message contains "429" or "RESOURCE_EXHAUSTED", else skip the chunk —
is dead code: the loop body cannot raise, because `safe3` cannot (see there),
so no 60-second sleep and no retry ever occurs. -/
def chunkLoop (cl : Client) (fuel : Nat) :
    St → List (List Char) → Option (St × ExtractResults)
  | σ, [] => some (σ, ⟨[], [], []⟩)
  | σ, c :: rest =>
    match safe3 cl fuel σ c with
    | none => none
    | some (σ1, r) =>
      let σ2 := if rest = [] then σ1 else sleep σ1 2
      match chunkLoop cl fuel σ2 rest with
      | none => none
      | some (σ3, acc) =>
        some (σ3, ⟨r.characters ++ acc.characters, r.emotions ++ acc.emotions,
          r.relationships ++ acc.relationships⟩)

/-- The chunked fallback path of extract_all (lines 144-198): chunk the text,
run the chunk loop, then deduplicate characters and relationships but not
emotions. -/
def chunkedExtract (cl : Client) (fuel : Nat) (σ : St) (text : List Char)
    (max_chunk_size : Nat) : Option (St × ExtractResults) :=
  match chunkLoop cl fuel σ (chunk_text text max_chunk_size) with
  | none => none
  | some (σ1, r) =>
    some (σ1, ⟨deduplicate_characters r.characters, r.emotions,
      deduplicate_relationships r.relationships⟩)

/-- The scaling attempt of extract_all (lines 128-137, calling
`_extract_with_scaling`, lines 486-564): one scaled client call per record
kind in dict-literal order; the first exception propagates (line 564
re-raises) and aborts the whole scaling attempt, discarding earlier kinds'
results. -/
def scalingPhase (cl : Client) (σ : St) (text : List Char) :
    St × Except PyExn ExtractResults :=
  match callClient cl σ ⟨.character, text, true⟩ with
  | (σ1, .exn m j) => (σ1, .error ⟨m, j⟩)
  | (σ1, .ok i1) =>
    match callClient cl σ1 ⟨.emotion, text, true⟩ with
    | (σ2, .exn m j) => (σ2, .error ⟨m, j⟩)
    | (σ2, .ok i2) =>
      match callClient cl σ2 ⟨.relationship, text, true⟩ with
      | (σ3, .exn m j) => (σ3, .error ⟨m, j⟩)
      | (σ3, .ok i3) =>
        (σ3, .ok ⟨i1.map mkCharacter, i2.map mkEmotion, i3.map mkRelationship⟩)

/-- `JapaneseTextExtractor.extract_all` (lines 107-208): when scaling is
enabled and the text is longer than max_chunk_size, try the scaling mode
first and on failure fall back to chunked extraction; when the text is longer
than max_chunk_size without scaling, go chunked directly; otherwise run the
three safe extractions once on the whole text (no deduplication on the direct
path). -/
def extract_all (cl : Client) (fuel : Nat) (σ : St) (text : List Char)
    (max_chunk_size : Nat) (use_scaling : Bool) : Option (St × ExtractResults) :=
  if use_scaling ∧ max_chunk_size < text.length then
    match scalingPhase cl σ text with
    | (σ1, .ok res) => some (σ1, res)
    | (σ1, .error _) => chunkedExtract cl fuel σ1 text max_chunk_size
  else if max_chunk_size < text.length then
    chunkedExtract cl fuel σ text max_chunk_size
  else
    safe3 cl fuel σ text

/-- Client for the C1 scenario: the very first call raises an Exception whose
message contains the rate-limit markers (it is not a JSONDecodeError); every
later call succeeds, returning one extraction spanning the queried text.  Under
the claim, the orchestrator should sleep 60 seconds, retry the chunk once, and
keep its contribution. -/
def clientC1 : Client := fun n c =>
  if n = 0 then .exn (s2l "429 RESOURCE_EXHAUSTED") false
  else .ok [⟨c.text, []⟩]

/-- Claim C1 is violated by the code: in chunked mode (max_chunk_size 3, text
"ab。cd", chunks "ab。" and "cd。") with clientC1, the rate-limit error of the
first call is swallowed inside _safe_extract_characters by its
"except Exception" handler, which returns [] — it never reaches the rate-limit
branch of extract_all's chunk loop.  The final state shows exactly one
character call for chunk "ab。" (no retry), sleeps [2] only (no 60-second
cooldown), and the merged result is missing chunk "ab。"'s character
contribution even though a second call would have succeeded; the run does not
abort. -/
theorem claim_C1_rate_limit_retry_dead :
    extract_all clientC1 10 { log := [], sleeps := [] } (s2l "ab。cd") 3 false
      = some ({ log := [⟨.character, s2l "ab。", false⟩, ⟨.emotion, s2l "ab。", false⟩,
                        ⟨.relationship, s2l "ab。", false⟩, ⟨.character, s2l "cd。", false⟩,
                        ⟨.emotion, s2l "cd。", false⟩, ⟨.relationship, s2l "cd。", false⟩],
                sleeps := [2] },
              { characters := [mkCharacter ⟨s2l "cd。", []⟩],
                emotions := [mkEmotion ⟨s2l "ab。", []⟩, mkEmotion ⟨s2l "cd。", []⟩],
                relationships := [mkRelationship ⟨s2l "ab。", []⟩] }) := by
  decide

-- ### Small-step lemmas for the safe extraction layer

theorem safeExtractItems_ok (cl : Client) (k : Kind) (fuel : Nat) (σ : St)
    (text : List Char) (items : List ExtractionItem)
    (h : cl σ.log.length ⟨k, text, false⟩ = .ok items) :
    safeExtractItems cl k (fuel + 1) σ text
      = some ({ σ with log := σ.log ++ [⟨k, text, false⟩] }, items) := by
  rw [safeExtractItems]
  simp only [callClient]
  rw [h]

theorem safeExtractItems_exn_other (cl : Client) (k : Kind) (fuel : Nat) (σ : St)
    (text m : List Char)
    (h : cl σ.log.length ⟨k, text, false⟩ = .exn m false) :
    safeExtractItems cl k (fuel + 1) σ text
      = some ({ σ with log := σ.log ++ [⟨k, text, false⟩] }, []) := by
  rw [safeExtractItems]
  simp only [callClient]
  rw [h]

theorem safeExtractItems_notJson (cl : Client) (k : Kind) (fuel : Nat) (σ : St)
    (c : List Char)
    (h : notJsonErr (cl σ.log.length ⟨k, c, false⟩)) :
    safeExtractItems cl k (fuel + 1) σ c
      = some ({ σ with log := σ.log ++ [⟨k, c, false⟩] },
          outcomeItems (cl σ.log.length ⟨k, c, false⟩)) := by
  rcases ho : cl σ.log.length ⟨k, c, false⟩ with items | ⟨m, b⟩
  · rw [safeExtractItems_ok cl k fuel σ c items ho, outcomeItems]
  · cases b with
    | false => rw [safeExtractItems_exn_other cl k fuel σ c m ho, outcomeItems]
    | true => rw [ho] at h; exact absurd h (by simp [notJsonErr])

theorem safeExtractItems_json_short (cl : Client) (k : Kind) (fuel : Nat) (σ : St)
    (text m : List Char)
    (h : cl σ.log.length ⟨k, text, false⟩ = .exn m true)
    (hlen : text.length ≤ 1000) :
    safeExtractItems cl k (fuel + 1) σ text
      = some ({ σ with log := σ.log ++ [⟨k, text, false⟩] }, []) := by
  rw [safeExtractItems]
  simp only [callClient]
  rw [h]
  simp only [if_neg (by omega : ¬ 1000 < text.length)]

theorem safeExtractItems_json_long_two (cl : Client) (k : Kind) (fuel : Nat) (σ : St)
    (text m c1 c2 : List Char)
    (h : cl σ.log.length ⟨k, text, false⟩ = .exn m true)
    (hlen : 1000 < text.length)
    (hchunks : (chunk_text text 1000).take 3 = [c1, c2])
    (h1 : safeExtractItems cl k fuel { σ with log := σ.log ++ [⟨k, text, false⟩] } c1
        = none) :
    safeExtractItems cl k (fuel + 1) σ text = none := by
  rw [safeExtractItems]
  simp only [callClient]
  rw [h]
  simp only [if_pos hlen]
  rw [hchunks]
  simp only [h1]

theorem safeExtractItems_json_long_one (cl : Client) (k : Kind) (fuel : Nat) (σ : St)
    (text m c1 : List Char)
    (h : cl σ.log.length ⟨k, text, false⟩ = .exn m true)
    (hlen : 1000 < text.length)
    (hchunks : (chunk_text text 1000).take 3 = [c1])
    (h1 : safeExtractItems cl k fuel { σ with log := σ.log ++ [⟨k, text, false⟩] } c1
        = none) :
    safeExtractItems cl k (fuel + 1) σ text = none := by
  rw [safeExtractItems]
  simp only [callClient]
  rw [h]
  simp only [if_pos hlen]
  rw [hchunks]
  simp only [h1]


-- ### Symbolic evaluation helpers for the chunker on long texts

theorem chunkAux_nil_emit (max_size : Nat) (cur : List Char) (h : cur ≠ []) :
    chunkAux max_size [] cur = [pyStrip cur] := by
  rw [chunkAux, if_neg h]

theorem chunkAux_cons_accept (max_size : Nat) (s : List Char) (rest : List (List Char))
    (cur : List Char) (h : cur.length + s.length ≤ max_size) :
    chunkAux max_size (s :: rest) cur = chunkAux max_size rest (cur ++ s ++ ['。']) := by
  rw [chunkAux, if_pos h]

theorem chunkAux_cons_reject (max_size : Nat) (s : List Char) (rest : List (List Char))
    (cur : List Char) (h : ¬(cur.length + s.length ≤ max_size)) (h2 : cur ≠ []) :
    chunkAux max_size (s :: rest) cur
      = pyStrip cur :: chunkAux max_size rest (s ++ ['。']) := by
  rw [chunkAux, if_neg h, if_neg h2]
  rfl

theorem chunkAux_cons_reject_nil (max_size : Nat) (s : List Char) (rest : List (List Char))
    (h : ¬(s.length ≤ max_size)) :
    chunkAux max_size (s :: rest) [] = chunkAux max_size rest (s ++ ['。']) := by
  rw [chunkAux, if_neg (by simpa using h), if_pos rfl]
  rfl

theorem splitSentences_no_delim :
    ∀ l : List Char, (∀ c ∈ l, isSentenceEnd c = false) → splitSentences l = [l] := by
  intro l
  induction l with
  | nil => intro _; rfl
  | cons a t ih =>
    intro h
    rw [splitSentences, if_neg (by simp [h a (List.mem_cons_self a t)])]
    rw [ih (fun c hc => h c (List.mem_cons_of_mem _ hc))]

theorem splitSentences_delim_cons :
    ∀ l1 l2 : List Char, (∀ c ∈ l1, isSentenceEnd c = false) →
      splitSentences (l1 ++ '。' :: l2) = l1 :: splitSentences l2 := by
  intro l1
  induction l1 with
  | nil =>
    intro l2 _
    rw [List.nil_append, splitSentences, if_pos (by decide)]
  | cons a t ih =>
    intro l2 h
    rw [List.cons_append, splitSentences, if_neg (by simp [h a (List.mem_cons_self a t)])]
    rw [ih l2 (fun c hc => h c (List.mem_cons_of_mem _ hc))]

theorem noDelim_replicate_a (n : Nat) :
    ∀ c ∈ List.replicate n 'a', isSentenceEnd c = false := by
  intro c hc
  rw [List.eq_of_mem_replicate hc]
  decide

theorem noWs_replicate_a (n : Nat) :
    ∀ c ∈ List.replicate n 'a', isPySpace c = false := by
  intro c hc
  rw [List.eq_of_mem_replicate hc]
  decide

theorem noWs_replicate_a_term (n : Nat) :
    ∀ c ∈ List.replicate n 'a' ++ ['。'], isPySpace c = false := by
  intro c hc
  rcases List.mem_append.mp hc with h | h
  · exact noWs_replicate_a n c h
  · simp at h
    rw [h]
    decide

-- ### Claim C3: the narrowing recursion does not terminate

/-- The always-malformed client: every call raises json.JSONDecodeError. -/
def badClient : Client := fun _ _ => .exn (s2l "Expecting value") true

/-- A single sentence of 1001 characters: no sentence delimiter occurs in it. -/
def tC3 : List Char := List.replicate 1001 'a'

/-- The sole sub-chunk the narrowing produces from tC3: the same 1001
characters with a terminator appended — one character longer than tC3. -/
def tC3' : List Char := tC3 ++ ['。']

theorem tC3_len : tC3.length = 1001 := by simp [tC3]

theorem tC3'_len : tC3'.length = 1002 := by simp [tC3', tC3]

theorem noWs_tC3' : ∀ c ∈ tC3', isPySpace c = false := noWs_replicate_a_term 1001

theorem tC3_chunks : (chunk_text tC3 1000).take 3 = [tC3'] := by
  rw [chunk_text, splitSentences_no_delim tC3 (noDelim_replicate_a 1001)]
  rw [chunkAux_cons_reject_nil 1000 tC3 [] (by rw [tC3_len]; omega)]
  rw [chunkAux_nil_emit 1000 (tC3 ++ ['。']) (by simp)]
  rw [pyStrip_eq_self (tC3 ++ ['。']) (noWs_replicate_a_term 1001)]
  rfl

theorem tC3'_chunks : (chunk_text tC3' 1000).take 3 = [tC3', ['。']] := by
  have h1 : splitSentences tC3' = [tC3, []] := by
    rw [show tC3' = tC3 ++ '。' :: [] from rfl]
    rw [splitSentences_delim_cons tC3 [] (noDelim_replicate_a 1001)]
    rfl
  rw [chunk_text, h1]
  rw [chunkAux_cons_reject_nil 1000 tC3 [[]] (by rw [tC3_len]; omega)]
  rw [chunkAux_cons_reject 1000 [] [] (tC3 ++ ['。'])
    (by simp only [List.length_append, List.length_nil, List.length_cons, tC3,
          List.length_replicate]; omega)
    (by simp)]
  rw [pyStrip_eq_self (tC3 ++ ['。']) (noWs_replicate_a_term 1001)]
  rw [List.nil_append]
  rw [chunkAux_nil_emit 1000 ['。'] (by simp)]
  rw [pyStrip_eq_self ['。'] (by decide)]
  rfl

theorem safeExtract_tC3'_none :
    ∀ (fuel : Nat) (k : Kind) (σ : St),
      safeExtractItems badClient k fuel σ tC3' = none := by
  intro fuel
  induction fuel with
  | zero => intro k σ; rfl
  | succ n ih =>
    intro k σ
    exact safeExtractItems_json_long_two badClient k n σ tC3' (s2l "Expecting value")
      tC3' ['。'] rfl (by rw [tC3'_len]; omega) tC3'_chunks (ih k _)

/-- Claim C3 is violated by the code: on the 1001-character delimiter-free
text tC3, with a client that always raises json.JSONDecodeError, the narrowing
recovery recurses on the sub-chunk tC3 ++ "。", which is longer than the input
(the size does not shrink), and re-chunking that sub-chunk reproduces it as
its own first sub-chunk, so the recursion exceeds every finite fuel: the
number of extraction attempts is unbounded and the recovery is not a total
function (in CPython it halts only because the interpreter's recursion limit
raises RecursionError, which the bare except of the narrowing loop swallows). -/
theorem claim_C3_narrowing_diverges :
    ∀ (k : Kind) (fuel : Nat) (σ : St),
      safeExtractItems badClient k fuel σ tC3 = none := by
  intro k fuel σ
  cases fuel with
  | zero => rfl
  | succ n =>
    exact safeExtractItems_json_long_one badClient k n σ tC3 (s2l "Expecting value")
      tC3' rfl (by rw [tC3_len]; omega) tC3_chunks (safeExtract_tC3'_none n k _)

-- ### Claim C2: malformed-output narrowing

theorem narrowing_run (F : Call → CallOutcome) (k : Kind) (σ : St)
    (text m : List Char) (fuel : Nat)
    (hF : F ⟨k, text, false⟩ = .exn m true)
    (hlen : 1000 < text.length)
    (hsub : ∀ c ∈ (chunk_text text 1000).take 3, notJsonErr (F ⟨k, c, false⟩))
    (hfuel : 2 ≤ fuel) :
    safeExtractItems (fun _ c => F c) k fuel σ text
      = some ({ σ with log := (σ.log ++ [⟨k, text, false⟩])
            ++ ((chunk_text text 1000).take 3).map (fun c => ⟨k, c, false⟩) },
          (((chunk_text text 1000).take 3).map
            (fun c => outcomeItems (F ⟨k, c, false⟩))).flatten) := by
  obtain ⟨f, rfl⟩ : ∃ f, fuel = (f + 1) + 1 := ⟨fuel - 2, by omega⟩
  rw [safeExtractItems]
  simp only [callClient]
  rw [hF]
  simp only [if_pos hlen]
  rcases h3 : (chunk_text text 1000).take 3 with _ | ⟨c1, rest1⟩
  · simp
  · rw [h3] at hsub
    have hc1 : notJsonErr (F ⟨k, c1, false⟩) := hsub c1 (List.mem_cons_self _ _)
    rcases rest1 with _ | ⟨c2, rest2⟩
    · simp only []
      rw [safeExtractItems_notJson (fun _ c => F c) k f _ c1 hc1]
      simp
    · have hc2 : notJsonErr (F ⟨k, c2, false⟩) :=
        hsub c2 (List.mem_cons_of_mem _ (List.mem_cons_self _ _))
      rcases rest2 with _ | ⟨c3, rest3⟩
      · simp only []
        rw [safeExtractItems_notJson (fun _ c => F c) k f _ c1 hc1]
        simp only []
        rw [safeExtractItems_notJson (fun _ c => F c) k f _ c2 hc2]
        simp
      · have hrest3 : rest3 = [] := by
          have h5 : (List.take 3 (chunk_text text 1000)).length ≤ 3 :=
            List.length_take_le 3 _
          rw [h3] at h5
          simp only [List.length_cons] at h5
          exact List.eq_nil_of_length_eq_zero (by omega)
        subst hrest3
        have hc3 : notJsonErr (F ⟨k, c3, false⟩) :=
          hsub c3 (List.mem_cons_of_mem _ (List.mem_cons_of_mem _ (List.mem_cons_self _ _)))
        simp only []
        rw [safeExtractItems_notJson (fun _ c => F c) k f _ c1 hc1]
        simp only []
        rw [safeExtractItems_notJson (fun _ c => F c) k f _ c2 hc2]
        simp only []
        rw [safeExtractItems_notJson (fun _ c => F c) k f _ c3 hc3]
        simp [List.append_assoc]

/-- Claim C2: when the extraction client raises a malformed-response
(json.JSONDecodeError) error on a text: if the text exceeds 1000 characters,
the safe extraction operation re-chunks it at granularity 1000, retries on at
most the first 3 resulting sub-chunks (one client call each, in order), returns
the concatenation of the successful sub-chunks' extractions, and sub-chunks
that fail with a non-malformed error contribute nothing (they are dropped
silently); if the text has at most 1000 characters, it returns the empty list
without any further client call.  Stated for all three record kinds (the three
safe extraction operations share this body). -/
theorem claim_C2_malformed_narrowing :
    (∀ (F : Call → CallOutcome) (k : Kind) (σ : St) (text m : List Char) (fuel : Nat),
      F ⟨k, text, false⟩ = .exn m true →
      1000 < text.length →
      (∀ c ∈ (chunk_text text 1000).take 3, notJsonErr (F ⟨k, c, false⟩)) →
      2 ≤ fuel →
      safeExtractItems (fun _ c => F c) k fuel σ text
        = some ({ σ with log := (σ.log ++ [⟨k, text, false⟩])
              ++ ((chunk_text text 1000).take 3).map (fun c => ⟨k, c, false⟩) },
            (((chunk_text text 1000).take 3).map
              (fun c => outcomeItems (F ⟨k, c, false⟩))).flatten))
    ∧ (∀ (cl : Client) (k : Kind) (σ : St) (text m : List Char) (fuel : Nat),
      cl σ.log.length ⟨k, text, false⟩ = .exn m true →
      text.length ≤ 1000 →
      safeExtractItems cl k (fuel + 1) σ text
        = some ({ σ with log := σ.log ++ [⟨k, text, false⟩] }, [])) :=
  ⟨fun F k σ text m fuel hF hlen hsub hfuel =>
      narrowing_run F k σ text m fuel hF hlen hsub hfuel,
   fun cl k σ text m fuel h hlen =>
      safeExtractItems_json_short cl k fuel σ text m h hlen⟩

-- ### A concrete long-text scenario (used for the C2 witness and C6)

/-- Stateless client that succeeds on texts of at most 1000 characters
(returning one extraction spanning the text) and raises json.JSONDecodeError
on longer texts. -/
def FW : Call → CallOutcome := fun c =>
  if c.text.length ≤ 1000 then .ok [⟨c.text, []⟩]
  else .exn (s2l "Expecting value") true

/-- A 1202-character text made of two 600-character sentences. -/
def tW : List Char := List.replicate 600 'a' ++ '。' :: (List.replicate 600 'a' ++ ['。'])

/-- First chunk the narrowing produces from tW. -/
def cW1 : List Char := List.replicate 600 'a' ++ ['。']

/-- Second chunk the narrowing produces from tW. -/
def cW2 : List Char := (List.replicate 600 'a' ++ ['。']) ++ [] ++ ['。']

theorem tW_len : tW.length = 1202 := by simp [tW]

theorem cW1_len : cW1.length = 601 := by simp [cW1]

theorem cW2_len : cW2.length = 602 := by simp [cW2]

theorem tW_split : splitSentences tW
    = [List.replicate 600 'a', List.replicate 600 'a', []] := by
  rw [tW, splitSentences_delim_cons _ _ (noDelim_replicate_a 600)]
  rw [show List.replicate 600 'a' ++ ['。'] = List.replicate 600 'a' ++ '。' :: [] from rfl]
  rw [splitSentences_delim_cons _ _ (noDelim_replicate_a 600)]
  rfl

theorem tW_chunks : (chunk_text tW 1000).take 3 = [cW1, cW2] := by
  rw [chunk_text, tW_split]
  rw [chunkAux_cons_accept 1000 _ _ []
    (by simp only [List.length_nil, List.length_replicate]; omega)]
  rw [List.nil_append]
  rw [chunkAux_cons_reject 1000 _ _ (List.replicate 600 'a' ++ ['。'])
    (by simp only [List.length_append, List.length_cons, List.length_nil,
        List.length_replicate]; omega)
    (by simp)]
  rw [chunkAux_cons_accept 1000 _ _ (List.replicate 600 'a' ++ ['。'])
    (by simp only [List.length_append, List.length_cons, List.length_nil,
        List.length_replicate]; omega)]
  rw [chunkAux_nil_emit 1000 _ (by simp)]
  rw [pyStrip_eq_self _ (noWs_replicate_a_term 600)]
  rw [pyStrip_eq_self _ (by
    intro c hc
    rcases List.mem_append.mp hc with h | h
    · rcases List.mem_append.mp h with h' | h'
      · exact noWs_replicate_a_term 600 c h'
      · simp at h'
    · simp at h
      rw [h]
      decide)]
  rfl

theorem FW_tW (k : Kind) : FW ⟨k, tW, false⟩ = .exn (s2l "Expecting value") true := by
  rw [FW]
  simp only [tW_len]
  rfl

theorem FW_cW1 (k : Kind) : FW ⟨k, cW1, false⟩ = .ok [⟨cW1, []⟩] := by
  rw [FW]
  simp only [cW1_len]
  rw [if_pos (by omega)]

theorem FW_cW2 (k : Kind) : FW ⟨k, cW2, false⟩ = .ok [⟨cW2, []⟩] := by
  rw [FW]
  simp only [cW2_len]
  rw [if_pos (by omega)]

theorem FW_sub (k : Kind) : ∀ c ∈ (chunk_text tW 1000).take 3,
    notJsonErr (FW ⟨k, c, false⟩) := by
  rw [tW_chunks]
  intro c hc
  rcases List.mem_cons.mp hc with h | h
  · subst h
    rw [FW_cW1]
    trivial
  · simp at h
    subst h
    rw [FW_cW2]
    trivial

/-- Claim C2, witness: the narrowing scenario at the 1202-character text tW
with the length-threshold client FW, for the character kind, with the
hypotheses discharged concretely. -/
theorem claim_C2_witness :
    FW ⟨.character, tW, false⟩ = .exn (s2l "Expecting value") true
    ∧ 1000 < tW.length
    ∧ (∀ c ∈ (chunk_text tW 1000).take 3, notJsonErr (FW ⟨.character, c, false⟩))
    ∧ safeExtractItems (fun _ c => FW c) .character 2 { log := [], sleeps := [] } tW
        = some (St.mk ((([] : List Call) ++ [⟨.character, tW, false⟩])
              ++ ((chunk_text tW 1000).take 3).map (fun c => Call.mk .character c false)) [],
            (((chunk_text tW 1000).take 3).map
              (fun c => outcomeItems (FW ⟨.character, c, false⟩))).flatten) :=
  ⟨FW_tW .character, by rw [tW_len]; omega, FW_sub .character,
    claim_C2_malformed_narrowing.1 FW .character { log := [], sleeps := [] } tW
      (s2l "Expecting value") 2 (FW_tW .character) (by rw [tW_len]; omega)
      (FW_sub .character) (le_refl 2)⟩

theorem FW_narrow (k : Kind) (σ : St) :
    safeExtractItems (fun _ c => FW c) k 2 σ tW
      = some (St.mk (σ.log ++ [⟨k, tW, false⟩, ⟨k, cW1, false⟩, ⟨k, cW2, false⟩])
          σ.sleeps, [⟨cW1, []⟩, ⟨cW2, []⟩]) := by
  have h := narrowing_run FW k σ tW (s2l "Expecting value") 2 (FW_tW k)
    (by rw [tW_len]; omega) (FW_sub k) (le_refl 2)
  rw [tW_chunks] at h
  rw [h]
  simp only [List.map_cons, List.map_nil, FW_cW1, FW_cW2, outcomeItems]
  simp [List.append_assoc]

theorem safe3_FW (σ : St) :
    safe3 (fun _ c => FW c) 2 σ tW
      = some (St.mk (σ.log ++ [⟨.character, tW, false⟩, ⟨.character, cW1, false⟩,
            ⟨.character, cW2, false⟩, ⟨.emotion, tW, false⟩, ⟨.emotion, cW1, false⟩,
            ⟨.emotion, cW2, false⟩, ⟨.relationship, tW, false⟩,
            ⟨.relationship, cW1, false⟩, ⟨.relationship, cW2, false⟩]) σ.sleeps,
          ⟨[mkCharacter ⟨cW1, []⟩, mkCharacter ⟨cW2, []⟩],
           [mkEmotion ⟨cW1, []⟩, mkEmotion ⟨cW2, []⟩],
           [mkRelationship ⟨cW1, []⟩, mkRelationship ⟨cW2, []⟩]⟩) := by
  rw [safe3, safe_extract_characters, FW_narrow .character σ]
  simp only [Option.map_some']
  try simp only []
  rw [safe_extract_emotions, FW_narrow .emotion _]
  simp only [Option.map_some']
  try simp only []
  rw [safe_extract_relationships, FW_narrow .relationship _]
  simp only [Option.map_some']
  try simp only []
  simp [List.append_assoc]

-- ### Claim C6: threshold routing of extract_all

/-- Claim C6 counterexample: with max_chunk_size 3000 (the default threshold)
and the 1202-character text tW — below the threshold, so extract_all takes the
direct path — a client that answers the direct calls with
json.JSONDecodeError triggers the narrowing, so the client is invoked 3 times
for the character kind, not exactly once as the claim states. -/
theorem claim_C6_counterexample :
    ¬ ((extract_all (fun _ c => FW c) 2 (St.mk [] []) tW 3000 true).map
        (fun p => (p.1.log.filter (fun c => decide (c.kind = Kind.character))).length)
      = some 1)
    ∧ (extract_all (fun _ c => FW c) 2 (St.mk [] []) tW 3000 true).map
        (fun p => (p.1.log.filter (fun c => decide (c.kind = Kind.character))).length)
      = some 3 := by
  have hrun : extract_all (fun _ c => FW c) 2 (St.mk [] []) tW 3000 true
      = safe3 (fun _ c => FW c) 2 (St.mk [] []) tW := by
    rw [extract_all]
    rw [if_neg (fun h => absurd h.2 (by rw [tW_len]; omega))]
    rw [if_neg (by rw [tW_len]; omega)]
  rw [hrun, safe3_FW]
  simp only [Option.map_some']
  constructor
  · decide
  · decide

/-- Claim C6 (amended): a text of length at most max_chunk_size is processed
on the direct path — when the client's three direct calls return results, the
client is invoked exactly once per record kind (character, emotion,
relationship, in that order), on the whole text, with no scaled call (on a
malformed response the narrowing of claim C2 issues further calls, which is
why the success of the direct calls is assumed); a text longer than
max_chunk_size with scaling enabled attempts the three scaled calls first,
and exactly when a scaled call fails, extract_all falls back to chunked
extraction from the state the scaling attempt left behind. -/
theorem claim_C6_threshold_routing :
    (∀ (cl : Client) (σ : St) (text : List Char) (max_chunk_size fuel : Nat)
        (use_scaling : Bool),
      text.length ≤ max_chunk_size →
      (∀ n k, ∃ items, cl n ⟨k, text, false⟩ = .ok items) →
      1 ≤ fuel →
      ∃ res, extract_all cl fuel σ text max_chunk_size use_scaling
        = some (St.mk (σ.log ++ [⟨.character, text, false⟩, ⟨.emotion, text, false⟩,
            ⟨.relationship, text, false⟩]) σ.sleeps, res))
    ∧ (∀ (cl : Client) (σ : St) (text : List Char) (max_chunk_size fuel : Nat),
      max_chunk_size < text.length →
      (∀ n k, ∃ items, cl n ⟨k, text, true⟩ = .ok items) →
      ∃ res, extract_all cl fuel σ text max_chunk_size true
        = some (St.mk (σ.log ++ [⟨.character, text, true⟩, ⟨.emotion, text, true⟩,
            ⟨.relationship, text, true⟩]) σ.sleeps, res))
    ∧ (∀ (cl : Client) (σ σ1 : St) (text : List Char) (max_chunk_size fuel : Nat)
        (e : PyExn),
      max_chunk_size < text.length →
      scalingPhase cl σ text = (σ1, .error e) →
      extract_all cl fuel σ text max_chunk_size true
        = chunkedExtract cl fuel σ1 text max_chunk_size) := by
  refine ⟨?_, ?_, ?_⟩
  · intro cl σ text mcs fuel us hle hok hfuel
    obtain ⟨f, rfl⟩ : ∃ f, fuel = f + 1 := ⟨fuel - 1, by omega⟩
    obtain ⟨i1, h1⟩ := hok σ.log.length .character
    obtain ⟨i2, h2⟩ := hok (σ.log ++ [Call.mk .character text false]).length .emotion
    obtain ⟨i3, h3⟩ :=
      hok (σ.log ++ [Call.mk .character text false] ++ [Call.mk .emotion text false]).length
        .relationship
    rw [extract_all]
    rw [if_neg (fun h => absurd h.2 (by omega))]
    rw [if_neg (by omega)]
    refine ⟨⟨i1.map mkCharacter, i2.map mkEmotion, i3.map mkRelationship⟩, ?_⟩
    rw [safe3, safe_extract_characters, safeExtractItems_ok cl .character f σ text i1 h1]
    simp only [Option.map_some']
    try simp only []
    rw [safe_extract_emotions,
      safeExtractItems_ok cl .emotion f
        (St.mk (σ.log ++ [Call.mk .character text false]) σ.sleeps) text i2 h2]
    simp only [Option.map_some']
    try simp only []
    rw [safe_extract_relationships,
      safeExtractItems_ok cl .relationship f
        (St.mk (σ.log ++ [Call.mk .character text false] ++ [Call.mk .emotion text false])
          σ.sleeps) text i3 h3]
    simp only [Option.map_some']
    try simp only []
    simp [List.append_assoc]
  · intro cl σ text mcs fuel hlt hok
    obtain ⟨i1, h1⟩ := hok σ.log.length .character
    obtain ⟨i2, h2⟩ := hok (σ.log ++ [Call.mk .character text true]).length .emotion
    obtain ⟨i3, h3⟩ :=
      hok (σ.log ++ [Call.mk .character text true] ++ [Call.mk .emotion text true]).length
        .relationship
    rw [extract_all]
    rw [if_pos ⟨rfl, hlt⟩]
    refine ⟨⟨i1.map mkCharacter, i2.map mkEmotion, i3.map mkRelationship⟩, ?_⟩
    rw [scalingPhase]
    simp only [callClient]
    rw [h1]
    try simp only []
    rw [show (cl (St.mk (σ.log ++ [Call.mk .character text true]) σ.sleeps).log.length
        (Call.mk .emotion text true)) = .ok i2 from h2]
    try simp only []
    rw [show (cl (St.mk (σ.log ++ [Call.mk .character text true] ++ [Call.mk .emotion text true])
          σ.sleeps).log.length (Call.mk .relationship text true)) = .ok i3 from h3]
    try simp only []
    simp [List.append_assoc]
  · intro cl σ σ1 text mcs fuel e hlt hfail
    rw [extract_all]
    rw [if_pos ⟨rfl, hlt⟩]
    rw [hfail]

/-- Client that always succeeds, returning one extraction spanning the text. -/
def okC : Client := fun _ c => .ok [⟨c.text, []⟩]

/-- Client whose scaled calls fail and whose plain calls succeed. -/
def sfC : Client := fun _ c =>
  if c.scaled then .exn (s2l "scaling unavailable") false else .ok [⟨c.text, []⟩]

/-- Claim C6, witness: the three amended routing statements at concrete
inputs — a 2-character text routed directly, a 4-character text with
threshold 3 routed through a successful scaling attempt, and the same text
with failing scaled calls falling back to chunked extraction. -/
theorem claim_C6_witness :
    ((s2l "ab").length ≤ 3
      ∧ ∃ res, extract_all okC 1 (St.mk [] []) (s2l "ab") 3 false
          = some (St.mk ([] ++ [⟨.character, s2l "ab", false⟩, ⟨.emotion, s2l "ab", false⟩,
              ⟨.relationship, s2l "ab", false⟩]) [], res))
    ∧ (3 < (s2l "abcd").length
      ∧ ∃ res, extract_all okC 0 (St.mk [] []) (s2l "abcd") 3 true
          = some (St.mk ([] ++ [⟨.character, s2l "abcd", true⟩, ⟨.emotion, s2l "abcd", true⟩,
              ⟨.relationship, s2l "abcd", true⟩]) [], res))
    ∧ extract_all sfC 7 (St.mk [] []) (s2l "abcd") 3 true
        = chunkedExtract sfC 7 (St.mk ([] ++ [⟨.character, s2l "abcd", true⟩]) [])
            (s2l "abcd") 3 :=
  ⟨⟨by decide, claim_C6_threshold_routing.1 okC (St.mk [] []) (s2l "ab") 3 1 false
      (by decide) (fun _ _ => ⟨[⟨s2l "ab", []⟩], rfl⟩) (le_refl 1)⟩,
   ⟨by decide, claim_C6_threshold_routing.2.1 okC (St.mk [] []) (s2l "abcd") 3 0
      (by decide) (fun _ _ => ⟨[⟨s2l "abcd", []⟩], rfl⟩)⟩,
   claim_C6_threshold_routing.2.2 sfC (St.mk [] [])
      (St.mk ([] ++ [⟨.character, s2l "abcd", true⟩]) []) (s2l "abcd") 3 7
      ⟨s2l "scaling unavailable", false⟩ (by decide) rfl⟩
